import Mathlib

/-!
Verification of the pgzip package (parallel gzip, klauspost/pgzip).

The repository's reader (`gunzip.go`) is embedded shallowly below: byte
streams are `List Nat` with every element a byte value below 256, and the
stateful Go code becomes explicit state passing.  The DEFLATE codec is
external to the repository (Go's `compress/flate`); it is modelled as a
`Codec` record whose contract `Codec.Good` is the interface the spec
documents for it, together with one concrete executable instance
(`storedCodec`) used to evaluate theorems on concrete inputs.

The writer (`gzip.go`) is not part of the sources provided; writer-side
definitions are modelled from the spec and say so in their doc comments.
-/

set_option maxRecDepth 4000

namespace Pgzip

deriving instance DecidableEq for Except

/-- Errors of the reader.  `eof` is Go's `io.EOF`, `unexpectedEOF` is
`io.ErrUnexpectedEOF` (from `io.ReadFull`), `errHeader` is `ErrHeader`
(gunzip.go line 50), `errChecksum` is `ErrChecksum` (line 48), and
`inflateFail` stands for any error surfaced by the external DEFLATE
decoder. -/
inductive GzErr where
  | eof
  | unexpectedEOF
  | errHeader
  | errChecksum
  | inflateFail
  deriving DecidableEq

/-- One round of the reflected IEEE CRC-32: shift right once, folding in the
reversed polynomial 0xEDB88320 when the low bit is set (the bit-at-a-time
form of Go's `hash/crc32` IEEE table). -/
def crc32Round (c : Nat) : Nat :=
  if c % 2 = 1 then (c / 2) ^^^ 0xEDB88320 else c / 2

/-- Feed one byte into a raw (pre/post-inverted) CRC-32 state. -/
def crc32Byte (c b : Nat) : Nat :=
  crc32Round^[8] (c ^^^ b % 256)

/-- Feed a byte list into a raw CRC-32 state. -/
def crc32Update (c : Nat) (bs : List Nat) : Nat :=
  bs.foldl crc32Byte c

/-- IEEE CRC-32 of a byte list, as computed by Go's `crc32.NewIEEE`
digest over the same bytes. -/
def crc32 (bs : List Nat) : Nat :=
  crc32Update (0xFFFFFFFF) bs ^^^ 0xFFFFFFFF

/-- `digestWrite d bs` is the `Sum32` value of a Go `hash/crc32` IEEE digest
whose current `Sum32` is `d` after writing the bytes `bs`; a fresh digest has
`Sum32 = 0`, so `digestWrite 0 = crc32`. -/
def digestWrite (d : Nat) (bs : List Nat) : Nat :=
  crc32Update (d ^^^ 0xFFFFFFFF) bs ^^^ 0xFFFFFFFF

/-- gunzip.go lines 149-151: little-endian read of 4 bytes,
`uint32(p[0]) | uint32(p[1])<<8 | uint32(p[2])<<16 | uint32(p[3])<<24`. -/
def get4 (p : List Nat) : Nat :=
  p.getD 0 0 ||| p.getD 1 0 <<< 8 ||| p.getD 2 0 <<< 16 ||| p.getD 3 0 <<< 24

/-- Little-endian encoding of the low 32 bits of `n`, as the writer's
trailer emission produces it. -/
def le4 (n : Nat) : List Nat :=
  [n % 256, n / 256 % 256, n / 65536 % 256, n / 16777216 % 256]

/-- Little-endian encoding of the low 16 bits of `n`. -/
def le2 (n : Nat) : List Nat :=
  [n % 256, n / 256 % 256]

/-- `io.ReadFull` on a byte-list source: `k` bytes are consumed when
available; an empty source yields `io.EOF` and a short non-empty source
yields `io.ErrUnexpectedEOF`. -/
def readFull (k : Nat) (input : List Nat) : Except GzErr (List Nat × List Nat) :=
  if k ≤ input.length then .ok (input.take k, input.drop k)
  else if input.isEmpty then .error .eof
  else .error .unexpectedEOF

/-- gunzip.go lines 153-179 (`Reader.readString`), scanning loop.  `i` is
the index into the 512-byte `z.buf`; the scan fails with `ErrHeader` once
`i` reaches `len(z.buf) = 512`, and with the source's read error when the
input runs out first.  `acc` holds `z.buf[0:i]`.  Go returns the bytes as a
string whose code points are exactly the byte values (the Latin-1
conversion at lines 168-175 maps byte `v` to the rune of value `v`, and the
ASCII branch is the same map), so the model returns that code-point list. -/
def readStringAux (i : Nat) (acc input : List Nat) : Except GzErr (List Nat × List Nat) :=
  if 512 ≤ i then .error .errHeader
  else
    match input with
    | [] => .error .eof
    | b :: rest =>
      if b = 0 then .ok (acc, rest)
      else readStringAux (i + 1) (acc ++ [b]) rest

/-- gunzip.go lines 153-179: read a NUL-terminated Latin-1 string. -/
def readString (input : List Nat) : Except GzErr (List Nat × List Nat) :=
  readStringAux 0 [] input

/-- gunzip.go lines 181-187 (`Reader.read2`): two bytes, little-endian. -/
def read2 (input : List Nat) : Except GzErr (Nat × List Nat) :=
  match readFull 2 input with
  | .error e => .error e
  | .ok (b, rest) => .ok (b.getD 0 0 ||| b.getD 1 0 <<< 8, rest)

/-- The header fields the reader saves (gunzip.go lines 55-61).  A field is
`none` when its flag bit is absent from the stream (Go leaves the struct
field at its zero value in that case). -/
structure GzHeader where
  modTime : Nat
  os : Nat
  extra : Option (List Nat)
  name : Option (List Nat)
  comment : Option (List Nat)
  deriving DecidableEq

/-- gunzip.go lines 206-218: the FEXTRA field, read when `flg & flagExtra`
is set: a 2-byte little-endian length followed by that many bytes. -/
def parseExtra (flg : Nat) (input : List Nat) : Except GzErr (Option (List Nat) × List Nat) :=
  if flg &&& 4 ≠ 0 then
    match read2 input with
    | .error e => .error e
    | .ok (n, r1) =>
      match readFull n r1 with
      | .error e => .error e
      | .ok (d, r2) => .ok (some d, r2)
  else .ok (none, input)

/-- gunzip.go lines 220-237: an optional NUL-terminated string field
(FNAME when `bit = 8`, FCOMMENT when `bit = 16`). -/
def parseOptString (flg bit : Nat) (input : List Nat) :
    Except GzErr (Option (List Nat) × List Nat) :=
  if flg &&& bit ≠ 0 then
    match readString input with
    | .error e => .error e
    | .ok (s, r) => .ok (some s, r)
  else .ok (none, input)

/-- gunzip.go lines 239-248: the FHCRC check.  `digest0` is the digest's
`Sum32` at this point; the source wrote only `z.buf[0:10]` into the digest
(line 204), so the comparison is against the CRC-32 of the first ten header
bytes masked to 16 bits. -/
def checkHdrCrc (flg : Nat) (digest0 : Nat) (input : List Nat) : Except GzErr (List Nat) :=
  if flg &&& 2 ≠ 0 then
    match read2 input with
    | .error e => .error e
    | .ok (n, r) => if n ≠ digest0 &&& 0xFFFF then .error .errHeader else .ok r
  else .ok input

/-- gunzip.go lines 189-254 (`Reader.readHeader`): parse one member header
from the input and return the saved fields together with the unconsumed
input.  The Go `save` flag only controls whether the parsed fields are
stored on the `Reader`; the model always returns them and the caller
discards them for the `save = false` calls. -/
def readHeader (input : List Nat) : Except GzErr (GzHeader × List Nat) :=
  match readFull 10 input with
  | .error e => .error e
  | .ok (b, r0) =>
    if ¬(b.getD 0 0 = 0x1f ∧ b.getD 1 0 = 0x8b ∧ b.getD 2 0 = 8) then .error .errHeader
    else
      match parseExtra (b.getD 3 0) r0 with
      | .error e => .error e
      | .ok (ex, r1) =>
        match parseOptString (b.getD 3 0) 8 r1 with
        | .error e => .error e
        | .ok (nm, r2) =>
          match parseOptString (b.getD 3 0) 16 r2 with
          | .error e => .error e
          | .ok (cm, r3) =>
            match checkHdrCrc (b.getD 3 0) (digestWrite 0 b) r3 with
            | .error e => .error e
            | .ok r4 =>
              .ok ({ modTime := get4 (b.drop 4), os := b.getD 9 0,
                     extra := ex, name := nm, comment := cm }, r4)

/-- The external DEFLATE primitive (spec section 2: "DEFLATE codec
(external)").  `frag lvl b` is the fragment a worker emits for a non-last
block `b` at compression level `lvl`, terminated by a byte-aligned partial
flush; `lastFrag lvl b` is the fragment of the last block, ending with
BFINAL set; `inflate` is the matching sequential decoder, returning the
decompressed bytes of one complete DEFLATE stream together with the bytes
it did not consume, or `none` on corrupt input. -/
structure Codec where
  frag : Int → List Nat → List Nat
  lastFrag : Int → List Nat → List Nat
  inflate : List Nat → Option (List Nat × List Nat)

/-- The concatenated DEFLATE fragments of the blocks `bs` followed by the
last block `tl`, which form one complete DEFLATE stream (spec section 4.3). -/
def fragsJoin (c : Codec) (lvl : Int) (bs : List (List Nat)) (tl : List Nat) : List Nat :=
  (bs.map (c.frag lvl)).flatten ++ c.lastFrag lvl tl

/-- The documented contract of the external DEFLATE primitive (spec
sections 2 and 4.3): decoding the concatenation of non-last fragments
followed by a last fragment yields exactly the blocks' bytes and consumes
exactly the fragments; and a fragment is never empty (a non-last fragment
ends with the 5-byte partial-flush marker). -/
def Codec.Good (c : Codec) : Prop :=
  (∀ (lvl : Int) (bs : List (List Nat)) (tl rest : List Nat),
      c.inflate (fragsJoin c lvl bs tl ++ rest) = some (bs.flatten ++ tl, rest))
  ∧ (∀ (lvl : Int) (b : List Nat), c.frag lvl b ≠ [])

/-- The input slicer (spec section 4.2): split `l` into full blocks of
exactly `k` bytes plus a remainder of fewer than `k` bytes (a block is
submitted exactly when the buffer reaches `k` bytes). -/
def slice (k : Nat) (l : List Nat) : List (List Nat) × List Nat :=
  if _h : 0 < k ∧ k ≤ l.length then
    let p := slice k (l.drop k)
    (l.take k :: p.1, p.2)
  else ([], l)
termination_by l.length
decreasing_by
  simp only [List.length_drop]
  omega

/-- Modelled from the spec: the XFL byte the missing writer (gzip.go)
emits, `2` for best compression (level 9), `4` for fastest (level 1),
`0` otherwise (spec section 6). -/
def xflOf (lvl : Int) : Nat :=
  if lvl = 9 then 2 else if lvl = 1 then 4 else 0

/-- Modelled from the spec: the 10-byte fixed header the missing writer
emits for a default `Header` (no extra, name or comment, so FLG = 0):
`1F 8B 08 FLG MTIME(4 LE) XFL OS` (spec section 6). -/
def gzHeaderBytes (lvl : Int) (mt os : Nat) : List Nat :=
  [0x1f, 0x8b, 8, 0] ++ le4 mt ++ [xflOf lvl, os]

/-- Modelled from the spec: the writer facade's session state (spec
sections 3 and 4.1), for a session whose `Header` carries only a
modification time and OS byte.  `sink` is everything written to the sink so
far, `buf` the slicer's partially filled block, `crcState`/`size` the
emitter's running CRC-32 and total (the parallel per-block CRCs folded in
order combine to the CRC of the concatenation, which is what `crcState`
holds). -/
structure WriterState where
  level : Int
  blockSize : Nat
  mt : Nat
  os : Nat
  sink : List Nat
  buf : List Nat
  headerWritten : Bool
  crcState : Nat
  size : Nat
  closed : Bool

/-- Modelled from the spec: `new_with_level(sink, level)` plus
`set_concurrency(block_size, blocks)`; nothing touches the sink yet. -/
def newWriter (lvl : Int) (bsize : Nat) (mt os : Nat) : WriterState :=
  { level := lvl, blockSize := bsize, mt := mt, os := os, sink := [],
    buf := [], headerWritten := false, crcState := 0, size := 0, closed := false }

/-- Modelled from the spec: header emission is deferred until the first
block submission (spec section 4.1). -/
def emitHeader (w : WriterState) : WriterState :=
  if w.headerWritten then w
  else { w with sink := w.sink ++ gzHeaderBytes w.level w.mt w.os, headerWritten := true }

/-- Modelled from the spec: submitting one block to the worker pool and
awaiting its in-order emission: the block's fragment is appended to the
sink and its CRC and length are folded into the running totals (spec
sections 4.1-4.4). -/
def submitBlock (c : Codec) (last : Bool) (w : WriterState) (blk : List Nat) : WriterState :=
  let w1 := emitHeader w
  { w1 with
    sink := w1.sink ++ (if last then c.lastFrag else c.frag) w1.level blk,
    crcState := digestWrite w1.crcState blk,
    size := (w1.size + blk.length) % 4294967296 }

/-- Modelled from the spec: `write(bytes)` appends to the current buffer
and submits a block every time the buffer reaches `block_size` bytes (spec
sections 4.1 and 4.2). -/
def writerWrite (c : Codec) (w : WriterState) (bytes : List Nat) : WriterState :=
  let p := slice w.blockSize (w.buf ++ bytes)
  { p.1.foldl (submitBlock c false) w with buf := p.2 }

/-- Modelled from the spec: `flush()` submits the partially filled block
(possibly empty) as a non-last block and drains it to the sink (spec
section 4.1). -/
def writerFlush (c : Codec) (w : WriterState) : WriterState :=
  { submitBlock c false w w.buf with buf := [] }

/-- Modelled from the spec: `close()` submits the tail (possibly empty) as
the last block, drains everything, and writes the trailer
`CRC32_LE || ISIZE_LE` (spec section 4.1). -/
def writerClose (c : Codec) (w : WriterState) : WriterState :=
  let w1 := submitBlock c true w w.buf
  { w1 with buf := [], closed := true,
            sink := w1.sink ++ le4 w1.crcState ++ le4 w1.size }

/-- Modelled from the spec: one full writer session — construct, write all
of `B`, close — returning the bytes handed to the sink. -/
def compressAll (c : Codec) (lvl : Int) (bsize : Nat) (mt os : Nat) (B : List Nat) : List Nat :=
  (writerClose c (writerWrite c (newWriter lvl bsize mt os) B)).sink

/-- The reader's per-member loop, gunzip.go lines 320-390 driven to EOF:
inflate the member's DEFLATE stream (the read-ahead producer repeatedly
calls `decompressor.Read` and the digest accumulates over the blocks in
order, so the digest at EOF equals `crc32` of the member's decompressed
bytes and `z.size` equals its length mod 2^32), then read and check the
8-byte trailer (lines 368-378), then try the next header (lines 380-389):
a clean `io.EOF` there ends the stream normally, any other error is
returned, and a parsed header starts the next member.  `fuel` bounds the
number of members and only pays for the recursion; it is immaterial
whenever it exceeds the member count. -/
def gunzipLoop (c : Codec) : Nat → List Nat → Except GzErr (List Nat)
  | 0, _ => .error .inflateFail
  | fuel + 1, input =>
    match c.inflate input with
    | none => .error .inflateFail
    | some (payload, r1) =>
      match readFull 8 r1 with
      | .error e => .error e
      | .ok (t, r2) =>
        if crc32 payload ≠ get4 (t.take 4) ∨ payload.length % 4294967296 ≠ get4 (t.drop 4)
        then .error .errChecksum
        else
          match readHeader r2 with
          | .error .eof => .ok payload
          | .error e => .error e
          | .ok (_, r3) =>
            match gunzipLoop c fuel r3 with
            | .error e => .error e
            | .ok more => .ok (payload ++ more)

/-- The whole reader, `NewReader` followed by `Read` to EOF (gunzip.go
lines 99-109 and 320-390): parse the first header (saved and exposed), then
decompress the members.  Only the first member's header is returned;
headers of later members are parsed with `save = false` and discarded
inside `gunzipLoop`. -/
def gunzip (c : Codec) (input : List Nat) : Except GzErr (GzHeader × List Nat) :=
  match readHeader input with
  | .error e => .error e
  | .ok (hdr, rest) =>
    match gunzipLoop c (input.length + 1) rest with
    | .error e => .error e
    | .ok payload => .ok (hdr, payload)

/-- The `Reader` session state (gunzip.go lines 77-94).  `ahead` is the
sequence of `(buf, err)` pairs the read-ahead producer (lines 273-317) will
deliver over the `readAhead` channel; `rest` is what remains in the
underlying reader after the current member's DEFLATE stream; `digest` and
`size` are the running CRC-32 `Sum32` and `uint32` byte count.  The
producer updates digest and size as it reads blocks; the model applies
those updates when a pair is taken from `ahead`, which agrees with the
source by the time they are compared against the trailer because the final
(EOF-carrying) pair is the last one produced. -/
structure ReaderState where
  current : List Nat
  ahead : List (List Nat × Option GzErr)
  lastBlock : Bool
  err : Option GzErr
  digest : Nat
  size : Nat
  rest : List Nat
  blockSize : Int
  blocks : Int
  deriving DecidableEq

/-- The read-ahead producer's chunking of one member's decompressed bytes
(gunzip.go lines 285-316): blocks of at most `blockSize` bytes in order,
the final short block carrying the decompressor's `io.EOF`. -/
def chunkItems (bsize : Nat) (payload : List Nat) : List (List Nat × Option GzErr) :=
  (slice bsize payload).1.map (fun b => (b, (none : Option GzErr))) ++
    [((slice bsize payload).2, some .eof)]

/-- Start decompressing one member (gunzip.go lines 251-252:
`flate.NewReader` plus `doReadAhead`): run the external decoder over the
input and queue its blocks.  If the decoder rejects the stream the producer
delivers that error as its first pair; the unconsumed remainder of the
source is then irrelevant to the session, so the model leaves `rest` at the
member's input. -/
def startMember (c : Codec) (z : ReaderState) (input : List Nat) : ReaderState :=
  match c.inflate input with
  | none =>
    { z with ahead := [([], some .inflateFail)], rest := input,
             current := [], lastBlock := false }
  | some (payload, r) =>
    { z with ahead := chunkItems z.blockSize.toNat payload, rest := r,
             current := [], lastBlock := false }

/-- Receive one `(buf, erri)` pair from the read-ahead channel, gunzip.go
lines 330-348.  A non-EOF error latches into `z.err` and aborts the read
before `current` is replaced; `io.EOF` marks the last block and delivers
its bytes.  An exhausted queue models a closed channel, which cannot happen
in a well-formed session; the result there is immaterial to every theorem
below. -/
def fetchItem (z : ReaderState) : ReaderState × Option GzErr :=
  match z.ahead with
  | [] => (z, some .inflateFail)
  | (buf, erri) :: more =>
    let z1 := { z with ahead := more, digest := digestWrite z.digest buf,
                       size := (z.size + buf.length) % 4294967296 }
    match erri with
    | some e =>
      if e = .eof then ({ z1 with lastBlock := true, current := buf }, none)
      else ({ z1 with err := some e }, some e)
    | none => ({ z1 with current := buf }, none)

/-- `Reader.Read` (gunzip.go lines 320-390) for a caller buffer of `plen`
bytes, returning the byte count, the returned error and the new state.  A
latched error returns immediately (lines 321-323); an empty buffer returns
zeroes (lines 324-326); otherwise at most one pair is fetched (the `for`
loop's body always returns or breaks on its first iteration), the copy
branch of lines 350-364 runs, and reaching the last block falls through to
the trailer check and next-header attempt of lines 368-389.  `fuel` pays
only for the tail call `z.Read(p)` of line 389 that starts the next member;
with fuel exceeding the member count the zero-fuel case is unreachable. -/
def readOnce (c : Codec) : Nat → ReaderState → Nat → Nat × Option GzErr × ReaderState
  | fuel, z, plen =>
    match z.err with
    | some e => (0, some e, z)
    | none =>
      if plen = 0 then (0, none, z)
      else
        let f := if z.current = [] ∧ z.lastBlock = false then fetchItem z else (z, none)
        match f.2 with
        | some e => (0, some e, f.1)
        | none =>
          let z1 := f.1
          if z1.current.length ≤ plen then
            let n := z1.current.length
            let z2 := { z1 with current := [] }
            if z2.lastBlock = true then
              match readFull 8 z2.rest with
              | .error e => (0, some e, { z2 with err := some e })
              | .ok (t, r2) =>
                if z2.digest ≠ get4 (t.take 4) ∨ z2.size ≠ get4 (t.drop 4) then
                  (0, some .errChecksum,
                   { z2 with err := some .errChecksum, rest := r2 })
                else
                  match readHeader r2 with
                  | .error e => (n, some e, { z2 with err := some e, rest := r2 })
                  | .ok (_, r3) =>
                    match fuel with
                    | 0 => (0, some .inflateFail, z2)
                    | fuel' + 1 =>
                      readOnce c fuel'
                        (startMember c { z2 with digest := 0, size := 0 } r3) plen
            else (n, none, z2)
          else (plen, none, { z1 with current := z1.current.drop plen })

/-- `Reader.Reset` (gunzip.go lines 136-146): clear the latched error, the
size and the digest unconditionally, then read the first header of the new
source; the header's error, if any, is returned but never latched. -/
def resetReader (c : Codec) (z : ReaderState) (input : List Nat) : Option GzErr × ReaderState :=
  let z1 := { z with err := none, size := 0, digest := 0 }
  match readHeader input with
  | .error e => (some e, z1)
  | .ok (_, rest) => (none, startMember c z1 rest)

/-- The reader's default block count (gunzip.go line 101 and the
documented defaults at lines 118-120; the constant itself lives in the
missing gzip.go). -/
def defaultBlocks : Int := 16

/-- The reader's default block size in bytes (gunzip.go lines 118-120). -/
def defaultBlockSize : Int := 250000

/-- `NewReaderN` (gunzip.go lines 121-131): store the requested block size
and count, parse the first header and start the read-ahead; `doReadAhead`
(lines 259-265) silently replaces a block count of at most 0 and a block
size of at most 512 with the defaults. -/
def newReaderN (c : Codec) (input : List Nat) (blockSize blocks : Int) :
    Except GzErr ReaderState :=
  match readHeader input with
  | .error e => .error e
  | .ok (_, rest) =>
    .ok (startMember c
      { current := [], ahead := [], lastBlock := false, err := none,
        digest := 0, size := 0, rest := [],
        blockSize := if blockSize ≤ 512 then defaultBlockSize else blockSize,
        blocks := if blocks ≤ 0 then defaultBlocks else blocks } rest)

/-- The ten fixed bytes of a member header carrying flags `flg`,
modification time `mt`, XFL byte `xfl` and OS byte `os`. -/
def hdrFixed (flg mt xfl os : Nat) : List Nat :=
  [0x1f, 0x8b, 8, flg] ++ le4 mt ++ [xfl, os]

/-- The optional header fields as they appear on the wire for flags `flg`:
FEXTRA as a 2-byte little-endian length plus bytes, FNAME and FCOMMENT as
NUL-terminated bytes, FHCRC as a 2-byte little-endian stored CRC. -/
def hdrOptBytes (flg : Nat) (extra name comment : List Nat) (storedCrc : Nat) : List Nat :=
  (if flg &&& 4 ≠ 0 then le2 extra.length ++ extra else []) ++
    (if flg &&& 8 ≠ 0 then name ++ [0] else []) ++
    (if flg &&& 16 ≠ 0 then comment ++ [0] else []) ++
    (if flg &&& 2 ≠ 0 then le2 storedCrc else [])

/-- Modelled from the spec: the missing writer's `writeString` (spec
section 6): a `name`/`comment` is accepted exactly when every code point is
Latin-1 and not NUL, and is emitted as those bytes followed by a NUL
terminator; otherwise `InvalidHeader` is returned. -/
def writeString (cs : List Nat) : Except GzErr (List Nat) :=
  if ∀ ch ∈ cs, 0 < ch ∧ ch ≤ 255 then .ok (cs ++ [0]) else .error .errHeader

/-- Unary length marker used by the model codec: `n` ones then a zero. -/
def unary (n : Nat) : List Nat :=
  List.replicate n 1 ++ [0]

/-- Decode a unary length marker. -/
def readUnary : List Nat → Option (Nat × List Nat)
  | [] => none
  | b :: r =>
    if b = 0 then some (0, r)
    else
      match readUnary r with
      | none => none
      | some (n, r1) => some (n + 1, r1)

/-- Decoder of the model codec: fragments are a tag byte (1 on the final
fragment), a unary length and the payload bytes; decoding folds fragments
until a final one.  `fuel` only pays for the recursion; every fragment is
at least two bytes long, so `input.length + 1` always suffices. -/
def storedInflateAux : Nat → List Nat → List Nat → Option (List Nat × List Nat)
  | 0, _, _ => none
  | _ + 1, _, [] => none
  | fuel + 1, acc, tag :: r =>
    match readUnary r with
    | none => none
    | some (n, r1) =>
      if n ≤ r1.length then
        if tag = 1 then some (acc ++ r1.take n, r1.drop n)
        else storedInflateAux fuel (acc ++ r1.take n) (r1.drop n)
      else none

/-- A concrete executable instance of the DEFLATE interface, in the spirit
of stored (type-00) DEFLATE blocks: payloads are kept verbatim behind a
self-delimiting length, the final fragment is tagged.  It satisfies
`Codec.Good` and lets every theorem below be evaluated on concrete
inputs. -/
def storedCodec : Codec where
  frag := fun _ b => 0 :: (unary b.length ++ b)
  lastFrag := fun _ b => 1 :: (unary b.length ++ b)
  inflate := fun input => storedInflateAux (input.length + 1) [] input

/-! Helper lemmas. -/

theorem take_len_append (a b : List Nat) : (a ++ b).take a.length = a := by
  induction a with
  | nil => simp
  | cons x xs ih => simp [ih]

theorem drop_len_append (a b : List Nat) : (a ++ b).drop a.length = b := by
  induction a with
  | nil => simp
  | cons x xs ih => simp [ih]

theorem readFull_exact (k : Nat) (a b : List Nat) (h : a.length = k) :
    readFull k (a ++ b) = .ok (a, b) := by
  subst h
  rw [readFull, if_pos (by simp), take_len_append, drop_len_append]

theorem lor_shiftLeft_eq_add (a b k : Nat) (h : a < 2 ^ k) :
    a ||| b <<< k = a + b <<< k := by
  rw [Nat.shiftLeft_eq, Nat.mul_comm b (2 ^ k), Nat.or_comm, Nat.add_comm]
  exact (Nat.mul_add_lt_is_or h b).symm

theorem get4_le4 (n : Nat) : get4 (le4 n) = n % 4294967296 := by
  have h1 : n % 256 < 2 ^ 8 := by omega
  have e1 := lor_shiftLeft_eq_add (n % 256) (n / 256 % 256) 8 h1
  have h2 : n % 256 + (n / 256 % 256) <<< 8 < 2 ^ 16 := by
    rw [Nat.shiftLeft_eq]; omega
  have e2 := lor_shiftLeft_eq_add _ (n / 65536 % 256) 16 h2
  have h3 : n % 256 + (n / 256 % 256) <<< 8 + (n / 65536 % 256) <<< 16 < 2 ^ 24 := by
    rw [Nat.shiftLeft_eq, Nat.shiftLeft_eq]; omega
  have e3 := lor_shiftLeft_eq_add _ (n / 16777216 % 256) 24 h3
  simp only [get4, le4, List.getD_cons_zero, List.getD_cons_succ]
  rw [e1, e2, e3, Nat.shiftLeft_eq, Nat.shiftLeft_eq, Nat.shiftLeft_eq]
  omega

theorem get2_lor (a b : Nat) (ha : a < 256) : a ||| b <<< 8 = a + b * 256 := by
  rw [lor_shiftLeft_eq_add a b 8 (by omega), Nat.shiftLeft_eq]

theorem read2_le2 (n : Nat) (hn : n < 65536) (rest : List Nat) :
    read2 (le2 n ++ rest) = .ok (n, rest) := by
  rw [read2, readFull_exact 2 (le2 n) rest (by simp [le2])]
  simp only [le2, List.getD_cons_zero, List.getD_cons_succ]
  have e := get2_lor (n % 256) (n / 256 % 256) (by omega)
  rw [e]
  have hx : n % 256 + n / 256 % 256 * 256 = n := by omega
  rw [hx]

theorem slice_flatten (k : Nat) (l : List Nat) :
    (slice k l).1.flatten ++ (slice k l).2 = l := by
  refine slice.induct k (fun x => (slice k x).1.flatten ++ (slice k x).2 = x) ?_ ?_ l
  · intro x h ih
    rw [slice, dif_pos h]
    simp only [List.flatten_cons, List.append_assoc, ih]
    exact List.take_append_drop k x
  · intro x h
    rw [slice, dif_neg h]
    simp

theorem crc32Round_lt (c : Nat) (h : c < 4294967296) : crc32Round c < 4294967296 := by
  rw [crc32Round]
  split
  · exact @Nat.xor_lt_two_pow _ _ 32 (by omega) (by norm_num)
  · omega

theorem crc32Byte_lt (c b : Nat) (h : c < 4294967296) : crc32Byte c b < 4294967296 := by
  rw [crc32Byte]
  have h0 : c ^^^ b % 256 < 4294967296 :=
    @Nat.xor_lt_two_pow _ _ 32 (by omega) (by omega)
  have step : ∀ (m : Nat) (x : Nat), x < 4294967296 → crc32Round^[m] x < 4294967296 := by
    intro m
    induction m with
    | zero => intro x hx; simpa using hx
    | succ k ih =>
      intro x hx
      rw [Function.iterate_succ_apply]
      exact ih _ (crc32Round_lt x hx)
  exact step 8 _ h0

theorem crc32Update_lt (bs : List Nat) (c : Nat) (h : c < 4294967296) :
    crc32Update c bs < 4294967296 := by
  induction bs generalizing c with
  | nil => simpa [crc32Update] using h
  | cons x xs ih =>
    rw [crc32Update, List.foldl_cons]
    exact ih _ (crc32Byte_lt c x h)

theorem crc32_lt (bs : List Nat) : crc32 bs < 4294967296 := by
  rw [crc32]
  exact @Nat.xor_lt_two_pow _ _ 32 (crc32Update_lt bs _ (by norm_num)) (by norm_num)

theorem xor_ffff_cancel (x : Nat) : x ^^^ 0xFFFFFFFF ^^^ 0xFFFFFFFF = x := by
  rw [Nat.xor_assoc, Nat.xor_self, Nat.xor_zero]

theorem digestWrite_zero (bs : List Nat) : digestWrite 0 bs = crc32 bs := by
  rw [digestWrite, crc32, Nat.zero_xor]

theorem digestWrite_append (d : Nat) (a b : List Nat) :
    digestWrite (digestWrite d a) b = digestWrite d (a ++ b) := by
  rw [digestWrite, digestWrite, digestWrite, xor_ffff_cancel, crc32Update, crc32Update,
    crc32Update, List.foldl_append]

theorem slice_short (k : Nat) (l : List Nat) (h : l.length < k) :
    slice k l = ([], l) := by
  rw [slice, dif_neg (by omega)]

theorem readUnary_unary (n : Nat) (r : List Nat) :
    readUnary (unary n ++ r) = some (n, r) := by
  induction n with
  | zero => simp [unary, readUnary]
  | succ m ih =>
    rw [unary, List.replicate_succ]
    simp only [List.cons_append, List.append_assoc]
    rw [readUnary, if_neg (by norm_num : ¬(1 : Nat) = 0)]
    rw [show (List.replicate m 1 : List Nat) ++ 0 :: ([] ++ r) = unary m ++ r by simp [unary]]
    rw [ih]

theorem frag_len_ge (lvl : Int) (b : List Nat) :
    2 ≤ (storedCodec.frag lvl b).length := by
  simp [storedCodec, unary]
  omega

theorem frags_len_ge (lvl : Int) (bs : List (List Nat)) :
    bs.length ≤ ((bs.map (storedCodec.frag lvl)).flatten).length := by
  induction bs with
  | nil => simp
  | cons x xs ih =>
    simp only [List.map_cons, List.flatten_cons, List.length_append, List.length_cons]
    have := frag_len_ge lvl x
    omega

theorem storedInflateAux_spec (lvl : Int) (bs : List (List Nat)) :
    ∀ (fuel : Nat) (acc tl rest : List Nat), bs.length < fuel →
      storedInflateAux fuel acc ((bs.map (storedCodec.frag lvl)).flatten ++
        (storedCodec.lastFrag lvl tl ++ rest)) = some (acc ++ (bs.flatten ++ tl), rest) := by
  induction bs with
  | nil =>
    intro fuel acc tl rest hf
    match fuel, hf with
    | f + 1, _ =>
      simp only [List.map_nil, List.flatten_nil, List.nil_append]
      show storedInflateAux (f + 1) acc ((1 : Nat) :: (unary tl.length ++ tl) ++ rest)
        = some (acc ++ ([] ++ tl), rest)
      simp only [List.cons_append, List.append_assoc]
      rw [storedInflateAux, readUnary_unary]
      dsimp only
      rw [if_pos (by simp), if_pos rfl, take_len_append, drop_len_append]
      simp
  | cons x xs ih =>
    intro fuel acc tl rest hf
    match fuel, hf with
    | f + 1, hf =>
      show storedInflateAux (f + 1) acc
        ((((0 : Nat) :: (unary x.length ++ x)) :: List.map (storedCodec.frag lvl) xs).flatten ++
          (storedCodec.lastFrag lvl tl ++ rest)) = _
      simp only [List.flatten_cons, List.cons_append, List.append_assoc]
      rw [storedInflateAux, readUnary_unary]
      dsimp only
      rw [if_pos (by simp), if_neg (by norm_num : ¬(0 : Nat) = 1), take_len_append,
        drop_len_append]
      rw [show ((List.map (storedCodec.frag lvl) xs).flatten ++
            (storedCodec.lastFrag lvl tl ++ rest))
          = ((xs.map (storedCodec.frag lvl)).flatten ++ (storedCodec.lastFrag lvl tl ++ rest))
          from rfl]
      rw [ih f (acc ++ x) tl rest (by simpa using Nat.lt_of_succ_lt_succ hf)]
      simp

theorem storedCodec_good : storedCodec.Good := by
  constructor
  · intro lvl bs tl rest
    show storedInflateAux ((fragsJoin storedCodec lvl bs tl ++ rest).length + 1) [] _ = _
    rw [show fragsJoin storedCodec lvl bs tl ++ rest
        = (bs.map (storedCodec.frag lvl)).flatten ++ (storedCodec.lastFrag lvl tl ++ rest)
        by rw [fragsJoin, List.append_assoc]]
    rw [storedInflateAux_spec lvl bs _ [] tl rest (by
      simp only [List.length_append]
      have := frags_len_ge lvl bs
      omega)]
    simp
  · intro lvl b
    simp [storedCodec]

theorem readStringAux_ok (s : List Nat) :
    ∀ (i : Nat) (acc rest : List Nat), (∀ ch ∈ s, ch ≠ 0) → i + s.length < 512 →
      readStringAux i acc (s ++ 0 :: rest) = .ok (acc ++ s, rest) := by
  induction s with
  | nil =>
    intro i acc rest _ hlen
    rw [List.nil_append, readStringAux, if_neg (by omega)]
    simp
  | cons b s ih =>
    intro i acc rest hnz hlen
    have hb : b ≠ 0 := hnz b (by simp)
    rw [List.cons_append, readStringAux, if_neg (by simp at hlen; omega), if_neg hb]
    rw [ih (i + 1) (acc ++ [b]) rest (fun ch hch => hnz ch (by simp [hch]))
      (by simp at hlen; omega)]
    simp

theorem readString_ok (s rest : List Nat) (hnz : ∀ ch ∈ s, ch ≠ 0)
    (hlen : s.length < 512) : readString (s ++ 0 :: rest) = .ok (s, rest) := by
  rw [readString, readStringAux_ok s 0 [] rest hnz (by omega)]
  simp

theorem readStringAux_long (s : List Nat) :
    ∀ (i : Nat) (acc rest : List Nat), (∀ ch ∈ s, ch ≠ 0) → 512 ≤ i + s.length →
      readStringAux i acc (s ++ rest) = .error .errHeader := by
  induction s with
  | nil =>
    intro i acc rest _ hlen
    rw [readStringAux.eq_def, if_pos (by simpa using hlen)]
  | cons b s ih =>
    intro i acc rest hnz hlen
    by_cases hi : 512 ≤ i
    · rw [readStringAux.eq_def, if_pos hi]
    · have hb : b ≠ 0 := hnz b (by simp)
      rw [List.cons_append, readStringAux, if_neg hi, if_neg hb]
      exact ih (i + 1) (acc ++ [b]) rest (fun ch hch => hnz ch (by simp [hch]))
        (by simp at hlen; omega)

theorem readString_long (s rest : List Nat) (hnz : ∀ ch ∈ s, ch ≠ 0)
    (hlen : 512 ≤ s.length) : readString (s ++ rest) = .error .errHeader :=
  readStringAux_long s 0 [] rest hnz (by omega)

theorem get4_append (p x : List Nat) (h : p.length = 4) : get4 (p ++ x) = get4 p := by
  match p, h with
  | [a, b, c, d], _ => simp [get4]

theorem hdrFixed_len (flg mt xfl os : Nat) : (hdrFixed flg mt xfl os).length = 10 := by
  simp [hdrFixed, le4]

theorem hdrFixed_getD_0 (flg mt xfl os : Nat) : (hdrFixed flg mt xfl os).getD 0 0 = 31 := by
  simp [hdrFixed, le4]

theorem hdrFixed_getD_1 (flg mt xfl os : Nat) : (hdrFixed flg mt xfl os).getD 1 0 = 139 := by
  simp [hdrFixed, le4]

theorem hdrFixed_getD_2 (flg mt xfl os : Nat) : (hdrFixed flg mt xfl os).getD 2 0 = 8 := by
  simp [hdrFixed, le4]

theorem hdrFixed_getD_3 (flg mt xfl os : Nat) : (hdrFixed flg mt xfl os).getD 3 0 = flg := by
  simp [hdrFixed, le4]

theorem hdrFixed_getD_9 (flg mt xfl os : Nat) : (hdrFixed flg mt xfl os).getD 9 0 = os := by
  simp [hdrFixed, le4]

theorem hdrFixed_drop4 (flg mt xfl os : Nat) :
    (hdrFixed flg mt xfl os).drop 4 = le4 mt ++ [xfl, os] := by
  simp [hdrFixed, le4]

theorem hdrFixed_get4_mt (flg mt xfl os : Nat) :
    get4 ((hdrFixed flg mt xfl os).drop 4) = mt % 4294967296 := by
  rw [hdrFixed_drop4, get4_append _ _ (by simp [le4]), get4_le4]

theorem parseExtra_bytes (flg : Nat) (extra more : List Nat) (hex : extra.length < 65536) :
    parseExtra flg ((if flg &&& 4 ≠ 0 then le2 extra.length ++ extra else []) ++ more) =
      .ok (if flg &&& 4 ≠ 0 then some extra else none, more) := by
  by_cases h : flg &&& 4 ≠ 0
  · rw [if_pos h, parseExtra, if_pos h, List.append_assoc, read2_le2 _ hex]
    dsimp only
    rw [readFull_exact _ extra more rfl]
    simp [h]
  · rw [if_neg h, parseExtra, if_neg h, List.nil_append]
    simp [h]

theorem parseOptString_bytes (flg bit : Nat) (s more : List Nat)
    (hnz : ∀ ch ∈ s, ch ≠ 0) (hlen : s.length < 512) :
    parseOptString flg bit ((if flg &&& bit ≠ 0 then s ++ [0] else []) ++ more) =
      .ok (if flg &&& bit ≠ 0 then some s else none, more) := by
  by_cases h : flg &&& bit ≠ 0
  · rw [if_pos h, parseOptString, if_pos h]
    rw [show (s ++ [0]) ++ more = s ++ 0 :: more by simp]
    rw [readString_ok s more hnz hlen]
    simp [h]
  · rw [if_neg h, parseOptString, if_neg h, List.nil_append]
    simp [h]

theorem checkHdrCrc_bytes (flg d storedCrc : Nat) (more : List Nat)
    (hc : storedCrc < 65536) :
    checkHdrCrc flg d ((if flg &&& 2 ≠ 0 then le2 storedCrc else []) ++ more) =
      (if flg &&& 2 ≠ 0 ∧ storedCrc ≠ d &&& 65535 then .error .errHeader else .ok more) := by
  by_cases h : flg &&& 2 ≠ 0
  · rw [if_pos h, checkHdrCrc, if_pos h, read2_le2 _ hc]
    dsimp only
    by_cases h2 : storedCrc ≠ d &&& 65535
    · rw [if_pos h2, if_pos ⟨h, h2⟩]
    · rw [if_neg h2, if_neg (by tauto)]
  · rw [if_neg h, checkHdrCrc, if_neg h, List.nil_append, if_neg (by tauto)]

theorem readHeader_decomposed (flg mt xfl os : Nat) (extra nm cmt : List Nat)
    (storedCrc : Nat) (rest : List Nat)
    (hex : extra.length < 65536)
    (hnm : ∀ ch ∈ nm, ch ≠ 0) (hnml : nm.length < 512)
    (hcm : ∀ ch ∈ cmt, ch ≠ 0) (hcml : cmt.length < 512)
    (hcrc : storedCrc < 65536) :
    readHeader (hdrFixed flg mt xfl os ++ hdrOptBytes flg extra nm cmt storedCrc ++ rest) =
      if flg &&& 2 ≠ 0 ∧ storedCrc ≠ crc32 (hdrFixed flg mt xfl os) &&& 65535
      then .error .errHeader
      else .ok ({ modTime := mt % 4294967296, os := os,
                  extra := if flg &&& 4 ≠ 0 then some extra else none,
                  name := if flg &&& 8 ≠ 0 then some nm else none,
                  comment := if flg &&& 16 ≠ 0 then some cmt else none }, rest) := by
  rw [readHeader, List.append_assoc,
    readFull_exact 10 _ _ (hdrFixed_len flg mt xfl os)]
  dsimp only
  rw [hdrFixed_getD_0, hdrFixed_getD_1, hdrFixed_getD_2, hdrFixed_getD_3, hdrFixed_getD_9,
    hdrFixed_get4_mt]
  rw [if_neg (by simp)]
  rw [hdrOptBytes, List.append_assoc, List.append_assoc, List.append_assoc]
  rw [parseExtra_bytes flg extra _ hex]
  dsimp only
  rw [parseOptString_bytes flg 8 nm _ hnm hnml]
  dsimp only
  rw [parseOptString_bytes flg 16 cmt _ hcm hcml]
  dsimp only
  rw [checkHdrCrc_bytes flg _ storedCrc rest hcrc]
  rw [digestWrite_zero]
  by_cases hc : flg &&& 2 ≠ 0 ∧ storedCrc ≠ crc32 (hdrFixed flg mt xfl os) &&& 65535
  · rw [if_pos hc, if_pos hc]
  · rw [if_neg hc, if_neg hc]

theorem digestWrite_nil (d : Nat) : digestWrite d [] = d := by
  rw [digestWrite, crc32Update, List.foldl_nil, xor_ffff_cancel]

theorem emitHeader_written (w : WriterState) (h : w.headerWritten = true) :
    emitHeader w = w := by
  rw [emitHeader, if_pos h]

theorem foldl_submit_fields (c : Codec) (chunks : List (List Nat)) :
    ∀ w : WriterState, w.headerWritten = true → w.size < 4294967296 →
      (chunks.foldl (submitBlock c false) w).sink
          = w.sink ++ (chunks.map (c.frag w.level)).flatten
      ∧ (chunks.foldl (submitBlock c false) w).crcState
          = digestWrite w.crcState chunks.flatten
      ∧ (chunks.foldl (submitBlock c false) w).size
          = (w.size + chunks.flatten.length) % 4294967296
      ∧ (chunks.foldl (submitBlock c false) w).headerWritten = true
      ∧ (chunks.foldl (submitBlock c false) w).level = w.level
      ∧ (chunks.foldl (submitBlock c false) w).mt = w.mt
      ∧ (chunks.foldl (submitBlock c false) w).os = w.os
      ∧ (chunks.foldl (submitBlock c false) w).buf = w.buf := by
  induction chunks with
  | nil =>
    intro w hw hsize
    refine ⟨by simp, by simp [digestWrite_nil], by simp; omega, hw, rfl, rfl, rfl, rfl⟩
  | cons x xs ih =>
    intro w hw hsize
    have hsub : submitBlock c false w x =
        { w with sink := w.sink ++ c.frag w.level x,
                 crcState := digestWrite w.crcState x,
                 size := (w.size + x.length) % 4294967296 } := by
      rw [submitBlock, emitHeader_written w hw]
      simp
    have ih2 := ih (submitBlock c false w x) (by rw [hsub]; exact hw)
      (by rw [hsub]; exact Nat.mod_lt _ (by norm_num))
    rw [List.foldl_cons]
    obtain ⟨h1, h2, h3, h4, h5, h6, h7, h8⟩ := ih2
    refine ⟨?_, ?_, ?_, h4, ?_, ?_, ?_, ?_⟩
    · rw [h1, hsub]; simp [List.append_assoc]
    · rw [h2, hsub]; simp [digestWrite_append]
    · rw [h3, hsub]; simp only [List.flatten_cons, List.length_append]; omega
    · rw [h5, hsub]
    · rw [h6, hsub]
    · rw [h7, hsub]
    · rw [h8, hsub]
theorem compressAll_eq (c : Codec) (lvl : Int) (k : Nat) (mt os : Nat) (B : List Nat) :
    compressAll c lvl k mt os B =
      gzHeaderBytes lvl mt os ++ fragsJoin c lvl (slice k B).1 (slice k B).2 ++
        le4 (crc32 B) ++ le4 (B.length % 4294967296) := by
  have hflat := slice_flatten k B
  rw [compressAll, writerWrite]
  simp only [newWriter, List.nil_append]
  rcases hch : (slice k B).1 with _ | ⟨ch, cs⟩
  · have htl : (slice k B).2 = B := by rw [hch] at hflat; simpa using hflat
    simp only [List.foldl_nil, htl]
    simp [writerClose, submitBlock, emitHeader, fragsJoin, digestWrite_zero]
  · rw [hch] at hflat
    have hsub1 : submitBlock c false
        { level := lvl, blockSize := k, mt := mt, os := os, sink := [], buf := [],
          headerWritten := false, crcState := 0, size := 0, closed := false } ch =
        { level := lvl, blockSize := k, mt := mt, os := os,
          sink := gzHeaderBytes lvl mt os ++ c.frag lvl ch, buf := [],
          headerWritten := true, crcState := digestWrite 0 ch,
          size := (0 + ch.length) % 4294967296, closed := false } := by
      simp [submitBlock, emitHeader]
    simp only [List.foldl_cons, hsub1]
    obtain ⟨h1, h2, h3, h4, h5, h6, h7, h8⟩ :=
      foldl_submit_fields c cs
        { level := lvl, blockSize := k, mt := mt, os := os,
          sink := gzHeaderBytes lvl mt os ++ c.frag lvl ch, buf := [],
          headerWritten := true, crcState := digestWrite 0 ch,
          size := (0 + ch.length) % 4294967296, closed := false }
        rfl (Nat.mod_lt _ (by norm_num))
    rw [writerClose]
    rw [submitBlock]
    rw [show emitHeader
        { List.foldl (submitBlock c false)
            { level := lvl, blockSize := k, mt := mt, os := os,
              sink := gzHeaderBytes lvl mt os ++ c.frag lvl ch, buf := [],
              headerWritten := true, crcState := digestWrite 0 ch,
              size := (0 + ch.length) % 4294967296, closed := false } cs
          with buf := (slice k B).2 } =
        { List.foldl (submitBlock c false)
            { level := lvl, blockSize := k, mt := mt, os := os,
              sink := gzHeaderBytes lvl mt os ++ c.frag lvl ch, buf := [],
              headerWritten := true, crcState := digestWrite 0 ch,
              size := (0 + ch.length) % 4294967296, closed := false } cs
          with buf := (slice k B).2 }
      from emitHeader_written _ (by simpa using h4)]
    simp only [h1, h2, h3, h5]
    rw [if_pos trivial, digestWrite_append, digestWrite_append, digestWrite_zero]
    have hB : ch ++ (cs.flatten ++ (slice k B).2) = B := by simpa using hflat
    have hBl : B.length = ch.length + cs.flatten.length + (slice k B).2.length := by
      have h := congrArg List.length hB
      rw [List.length_append, List.length_append] at h
      omega
    rw [hB]
    rw [show (((0 + ch.length) % 4294967296 + cs.flatten.length) % 4294967296 +
        (slice k B).2.length) % 4294967296 = B.length % 4294967296 by omega]
    simp [fragsJoin, List.append_assoc]
theorem readHeader_nil : readHeader ([] : List Nat) = .error .eof := rfl

theorem take4_le4_append (x : Nat) (y : List Nat) : (le4 x ++ y).take 4 = le4 x := by
  rw [show 4 = (le4 x).length by simp [le4], take_len_append]

theorem drop4_le4_append (x : Nat) (y : List Nat) : (le4 x ++ y).drop 4 = y := by
  rw [show 4 = (le4 x).length by simp [le4], drop_len_append]

theorem readHeader_gzHeaderBytes (lvl : Int) (mt os : Nat) (rest : List Nat) :
    readHeader (gzHeaderBytes lvl mt os ++ rest) =
      .ok ({ modTime := mt % 4294967296, os := os, extra := none, name := none,
             comment := none }, rest) := by
  have h := readHeader_decomposed 0 mt (xflOf lvl) os [] [] [] 0 rest (by simp)
    (by simp) (by simp) (by simp) (by simp) (by norm_num)
  rw [show hdrOptBytes 0 [] [] [] 0 = [] by simp [hdrOptBytes], List.append_nil] at h
  rw [if_neg (by simp)] at h
  simp only [show ¬(0 &&& 4 ≠ 0) by simp, show ¬(0 &&& 8 ≠ 0) by simp,
    show ¬(0 &&& 16 ≠ 0) by simp, if_neg] at h
  exact h

theorem trailer_block (B : List Nat) (after : List Nat) :
    readFull 8 (le4 (crc32 B) ++ (le4 (B.length % 4294967296) ++ after)) =
      .ok (le4 (crc32 B) ++ le4 (B.length % 4294967296), after) := by
  rw [show le4 (crc32 B) ++ (le4 (B.length % 4294967296) ++ after)
      = (le4 (crc32 B) ++ le4 (B.length % 4294967296)) ++ after by simp,
    readFull_exact 8 _ _ (by simp [le4])]

theorem gunzipLoop_body (c : Codec) (hc : c.Good) (lvl : Int) (k : Nat) (B : List Nat)
    (f : Nat) (after : List Nat) :
    gunzipLoop c (f + 1) (fragsJoin c lvl (slice k B).1 (slice k B).2 ++
        (le4 (crc32 B) ++ (le4 (B.length % 4294967296) ++ after))) =
      (match readHeader after with
       | .error .eof => .ok B
       | .error e => .error e
       | .ok (_, r3) =>
         match gunzipLoop c f r3 with
         | .error e => .error e
         | .ok more => .ok (B ++ more)) := by
  rw [gunzipLoop, hc.1 lvl (slice k B).1 (slice k B).2
    (le4 (crc32 B) ++ (le4 (B.length % 4294967296) ++ after))]
  dsimp only
  rw [slice_flatten k B, trailer_block B after]
  dsimp only
  rw [take4_le4_append, drop4_le4_append, get4_le4, get4_le4,
    Nat.mod_eq_of_lt (crc32_lt B), Nat.mod_mod_of_dvd _ dvd_rfl]
  rw [if_neg (by simp)]
theorem gunzipLoop_last (c : Codec) (hc : c.Good) (lvl : Int) (k : Nat) (B : List Nat)
    (f : Nat) :
    gunzipLoop c (f + 1) (fragsJoin c lvl (slice k B).1 (slice k B).2 ++
        (le4 (crc32 B) ++ le4 (B.length % 4294967296))) = .ok B := by
  have h := gunzipLoop_body c hc lvl k B f []
  rw [List.append_nil, readHeader_nil] at h
  simpa using h

theorem gunzipLoop_two (c : Codec) (hc : c.Good) (lvl1 lvl2 : Int) (k1 k2 : Nat)
    (mt2 os2 : Nat) (A B : List Nat) (f : Nat) :
    gunzipLoop c (f + 2)
      (fragsJoin c lvl1 (slice k1 A).1 (slice k1 A).2 ++
        (le4 (crc32 A) ++ (le4 (A.length % 4294967296) ++
          (gzHeaderBytes lvl2 mt2 os2 ++
            (fragsJoin c lvl2 (slice k2 B).1 (slice k2 B).2 ++
              (le4 (crc32 B) ++ le4 (B.length % 4294967296))))))) = .ok (A ++ B) := by
  rw [show f + 2 = (f + 1) + 1 from rfl]
  rw [gunzipLoop_body c hc lvl1 k1 A (f + 1) _]
  rw [readHeader_gzHeaderBytes]
  dsimp only
  rw [gunzipLoop_last c hc lvl2 k2 B f]
/-- C1: round-trip identity.  For every byte sequence `B` and every valid
configuration (compression level in -2..9, block size of at least 1024,
positive block count), compressing `B` with the writer session
(NewWriterLevel / SetConcurrency, Write, Close) and decompressing the
produced stream with the reader (NewReader, Read to EOF) yields exactly
`B`, for any DEFLATE codec meeting the documented external contract. -/
theorem c1_roundtrip (c : Codec) (hc : c.Good) (lvl : Int) (bsize blocks : Nat)
    (mt os : Nat) (B : List Nat)
    (_hlo : -2 ≤ lvl) (_hhi : lvl ≤ 9) (_hbs : 1024 ≤ bsize) (_hbl : 1 ≤ blocks)
    (hmt : mt < 4294967296) :
    gunzip c (compressAll c lvl bsize mt os B) =
      .ok ({ modTime := mt, os := os, extra := none, name := none, comment := none }, B) := by
  rw [gunzip, compressAll_eq]
  simp only [List.append_assoc]
  rw [readHeader_gzHeaderBytes]
  dsimp only
  rw [gunzipLoop_last c hc lvl bsize B]
  rw [Nat.mod_eq_of_lt hmt]

theorem c1_roundtrip_witness :
    gunzip storedCodec (compressAll storedCodec 6 1024 100 255 [10, 20, 30]) =
      .ok ({ modTime := 100, os := 255, extra := none, name := none, comment := none },
        [10, 20, 30]) :=
  c1_roundtrip storedCodec storedCodec_good 6 1024 16 100 255 [10, 20, 30]
    (by norm_num) (by norm_num) (by norm_num) (by norm_num) (by norm_num)
/-- C6: concatenation.  For any two inputs `A` and `B` compressed by two
independent writer sessions into the same sink, a single reader over the
concatenated output decompresses to exactly `A` followed by `B`; after
validating the first member's trailer the reader parses the second header
without saving its fields and continues, so only the first stream's header
(here its modification time and OS byte) is exposed. -/
theorem c6_concat (c : Codec) (hc : c.Good) (lvl1 lvl2 : Int) (k1 k2 : Nat)
    (mt1 os1 mt2 os2 : Nat) (A B : List Nat) (hmt1 : mt1 < 4294967296) :
    gunzip c (compressAll c lvl1 k1 mt1 os1 A ++ compressAll c lvl2 k2 mt2 os2 B) =
      .ok ({ modTime := mt1, os := os1, extra := none, name := none, comment := none },
        A ++ B) := by
  rw [gunzip, compressAll_eq c lvl1 k1 mt1 os1 A, compressAll_eq c lvl2 k2 mt2 os2 B]
  simp only [List.append_assoc]
  rw [readHeader_gzHeaderBytes]
  dsimp only
  rw [show (gzHeaderBytes lvl1 mt1 os1 ++
        (fragsJoin c lvl1 (slice k1 A).1 (slice k1 A).2 ++
          (le4 (crc32 A) ++ (le4 (A.length % 4294967296) ++
            (gzHeaderBytes lvl2 mt2 os2 ++
              (fragsJoin c lvl2 (slice k2 B).1 (slice k2 B).2 ++
                (le4 (crc32 B) ++ le4 (B.length % 4294967296)))))))).length + 1 =
      ((gzHeaderBytes lvl1 mt1 os1 ++
        (fragsJoin c lvl1 (slice k1 A).1 (slice k1 A).2 ++
          (le4 (crc32 A) ++ (le4 (A.length % 4294967296) ++
            (gzHeaderBytes lvl2 mt2 os2 ++
              (fragsJoin c lvl2 (slice k2 B).1 (slice k2 B).2 ++
                (le4 (crc32 B) ++ le4 (B.length % 4294967296)))))))).length - 1) + 2
      by simp [gzHeaderBytes, le4]]
  rw [gunzipLoop_two c hc lvl1 lvl2 k1 k2 mt2 os2 A B]
  rw [Nat.mod_eq_of_lt hmt1]

theorem c6_concat_witness :
    gunzip storedCodec (compressAll storedCodec 6 250000 7 255 [1, 2] ++
        compressAll storedCodec 1 2048 9 3 [4, 5]) =
      .ok ({ modTime := 7, os := 255, extra := none, name := none, comment := none },
        [1, 2, 4, 5]) := by
  have h := c6_concat storedCodec storedCodec_good 6 1 250000 2048 7 255 9 3
    [1, 2] [4, 5] (by norm_num)
  simpa using h

/-- C7: flush semantics.  With zero bytes written, `flush` emits a valid
non-empty GZIP prefix (its header parses, followed by the empty non-last
fragment); a following `write` of fewer than `block_size` bytes adds
nothing to the sink; the next `flush` strictly grows the sink. -/
theorem c7_flush (c : Codec) (hc : c.Good) (lvl : Int) (bsize mt os : Nat)
    (hbs : 1024 ≤ bsize) (hmt : mt < 4294967296) :
    0 < (writerFlush c (newWriter lvl bsize mt os)).sink.length
    ∧ readHeader (writerFlush c (newWriter lvl bsize mt os)).sink =
        .ok ({ modTime := mt, os := os, extra := none, name := none, comment := none },
          c.frag lvl [])
    ∧ (writerWrite c (writerFlush c (newWriter lvl bsize mt os)) [120]).sink.length
        = (writerFlush c (newWriter lvl bsize mt os)).sink.length
    ∧ (writerWrite c (writerFlush c (newWriter lvl bsize mt os)) [120]).sink.length
        < (writerFlush c (writerWrite c (writerFlush c
            (newWriter lvl bsize mt os)) [120])).sink.length := by
  have h1 : writerFlush c (newWriter lvl bsize mt os) =
      { level := lvl, blockSize := bsize, mt := mt, os := os,
        sink := gzHeaderBytes lvl mt os ++ c.frag lvl [], buf := [],
        headerWritten := true, crcState := digestWrite 0 [], size := 0, closed := false } := by
    simp [writerFlush, submitBlock, emitHeader, newWriter]
  have h2 : writerWrite c (writerFlush c (newWriter lvl bsize mt os)) [120] =
      { level := lvl, blockSize := bsize, mt := mt, os := os,
        sink := gzHeaderBytes lvl mt os ++ c.frag lvl [], buf := [120],
        headerWritten := true, crcState := digestWrite 0 [], size := 0, closed := false } := by
    rw [h1, writerWrite]
    rw [show slice bsize ([] ++ [120]) = ([], [120]) from slice_short _ _ (by simp; omega)]
    simp
  have h3 : writerFlush c (writerWrite c (writerFlush c (newWriter lvl bsize mt os)) [120]) =
      { level := lvl, blockSize := bsize, mt := mt, os := os,
        sink := (gzHeaderBytes lvl mt os ++ c.frag lvl []) ++ c.frag lvl [120], buf := [],
        headerWritten := true, crcState := digestWrite (digestWrite 0 []) [120],
        size := 1 % 4294967296, closed := false } := by
    rw [h2, writerFlush, submitBlock, emitHeader]
    simp
  refine ⟨?_, ?_, ?_, ?_⟩
  · rw [h1]; simp [gzHeaderBytes, le4]
  · rw [h1]
    exact readHeader_gzHeaderBytes lvl mt os (c.frag lvl []) |>.trans
      (by rw [Nat.mod_eq_of_lt hmt])
  · rw [h2, h1]
  · rw [h3, h2]
    have hne := hc.2 lvl [120]
    have : 0 < (c.frag lvl [120]).length := List.length_pos.mpr hne
    simp only [List.length_append]
    omega

theorem c7_flush_witness :
    0 < (writerFlush storedCodec (newWriter 6 1024 5 255)).sink.length
    ∧ readHeader (writerFlush storedCodec (newWriter 6 1024 5 255)).sink =
        .ok ({ modTime := 5, os := 255, extra := none, name := none, comment := none },
          storedCodec.frag 6 [])
    ∧ (writerWrite storedCodec (writerFlush storedCodec (newWriter 6 1024 5 255))
        [120]).sink.length
        = (writerFlush storedCodec (newWriter 6 1024 5 255)).sink.length
    ∧ (writerWrite storedCodec (writerFlush storedCodec (newWriter 6 1024 5 255))
        [120]).sink.length
        < (writerFlush storedCodec (writerWrite storedCodec (writerFlush storedCodec
            (newWriter 6 1024 5 255)) [120])).sink.length :=
  c7_flush storedCodec storedCodec_good 6 1024 5 255 (by norm_num) (by norm_num)
/-- C5 counterexample: the 512-character Latin-1 name of all `a`s is
accepted by the writer (no NUL, all code points Latin-1) but the reader's
`readString` rejects its encoding with the invalid-header error, so it is
not recovered; the claim's universal round-trip fails at this input. -/
theorem c5_counterexample :
    writeString (List.replicate 512 97) = .ok (List.replicate 512 97 ++ [0])
    ∧ readString (List.replicate 512 97 ++ [0]) = .error .errHeader := by
  constructor
  · rw [writeString,
      if_pos (fun ch hch => by rw [List.eq_of_mem_replicate hch]; norm_num)]
  · exact readString_long _ [0]
      (fun ch hch => by rw [List.eq_of_mem_replicate hch]; norm_num) (by simp)

/-- C5 (amended): Latin-1 round-trip of header strings of length at most
511.  Any name or comment accepted by the writer — no NUL, no code point
above U+00FF — whose length is at most 511 characters is recovered
byte-for-byte by the reader, each code unit mapping to the code point of
the same value; longer accepted strings are rejected by the reader (see the
counterexample), and strings containing NUL or a code point above U+00FF
are rejected by the writer. -/
theorem c5_latin1_roundtrip (cs rest : List Nat)
    (hacc : ∀ ch ∈ cs, 0 < ch ∧ ch ≤ 255) (hlen : cs.length ≤ 511) :
    writeString cs = .ok (cs ++ [0])
    ∧ readString (cs ++ [0] ++ rest) = .ok (cs, rest)
    ∧ ∀ ds : List Nat, (∃ ch ∈ ds, ¬(0 < ch ∧ ch ≤ 255)) →
        writeString ds = .error .errHeader := by
  refine ⟨by rw [writeString, if_pos hacc], ?_, ?_⟩
  · have h := readString_ok cs rest (fun ch hch => by have := hacc ch hch; omega) (by omega)
    simpa [List.append_assoc] using h
  · intro ds hds
    rw [writeString, if_neg (by push_neg; obtain ⟨ch, hch, hn⟩ := hds; exact ⟨ch, hch, by omega⟩)]

theorem c5_latin1_roundtrip_witness :
    (writeString [72, 228] = .ok ([72, 228] ++ [0])
      ∧ readString ([72, 228] ++ [0] ++ [9]) = .ok ([72, 228], [9])
      ∧ ∀ ds : List Nat, (∃ ch ∈ ds, ¬(0 < ch ∧ ch ≤ 255)) →
          writeString ds = .error .errHeader)
    ∧ writeString [72, 0, 228] = .error .errHeader := by
  have h := c5_latin1_roundtrip [72, 228] [9] (by decide) (by decide)
  exact ⟨h, h.2.2 [72, 0, 228] ⟨0, by decide, by decide⟩⟩

/-- C9: a name or comment field whose NUL terminator does not occur within
the first 512 bytes makes `readString` return the invalid-header error, so
the reader rejects every header string of 512 bytes or more even when it is
valid NUL-terminated Latin-1 further out. -/
theorem c9_readString_limit (s rest : List Nat) (hlen : 512 ≤ s.length)
    (hnz : ∀ ch ∈ s, ch ≠ 0) :
    readString (s ++ rest) = .error .errHeader :=
  readString_long s rest hnz hlen

theorem c9_readString_limit_witness :
    readString (List.replicate 512 7 ++ [0]) = .error .errHeader :=
  c9_readString_limit (List.replicate 512 7) [0] (by simp)
    (fun ch hch => by rw [List.eq_of_mem_replicate hch]; norm_num)
/-- C4 counterexample.  First input: flags FNAME|FHCRC, name `a`, stored
header CRC computed per RFC 1952 over ALL header bytes — no RFC violation,
so the claim says parsing succeeds, yet `readHeader` returns the
invalid-header error because the source digests only the first ten bytes
(gunzip.go line 204); the second conjunct shows the two CRCs differ.  Third
input: a valid NUL-terminated 512-byte name with good magic and no FHCRC —
no RFC violation, yet `readHeader` rejects it via the 512-byte scan cap. -/
theorem c4_counterexample :
    readHeader (hdrFixed 10 0 0 255 ++ ([97, 0] ++
        le2 (crc32 (hdrFixed 10 0 0 255 ++ [97, 0]) &&& 65535))) = .error .errHeader
    ∧ crc32 (hdrFixed 10 0 0 255 ++ [97, 0]) &&& 65535
        ≠ crc32 (hdrFixed 10 0 0 255) &&& 65535
    ∧ readHeader (hdrFixed 8 0 0 255 ++ (List.replicate 512 97 ++ [0]))
        = .error .errHeader := by
  refine ⟨by decide, by decide, by decide⟩
/-- C4 (amended): header parsing fails with the invalid-header error
exactly when the first three bytes are not `1F 8B 08`, or, when FHCRC is
set, the stored 2-byte CRC differs from the CRC-32 of the FIRST TEN header
bytes only (not of the whole header as RFC 1952 prescribes) masked to the
low 16 bits, or an FNAME/FCOMMENT has no NUL terminator within its first
512 bytes; otherwise FEXTRA, FNAME and FCOMMENT are parsed per their flags
(2-byte little-endian length plus bytes, and NUL-terminated Latin-1). -/
theorem c4_header_parsing :
    (∀ (b0 b1 b2 : Nat) (r : List Nat), 7 ≤ r.length →
        ¬(b0 = 31 ∧ b1 = 139 ∧ b2 = 8) →
        readHeader (b0 :: b1 :: b2 :: r) = .error .errHeader)
    ∧ (∀ (flg mt xfl os : Nat) (extra nm cmt : List Nat) (storedCrc : Nat)
        (rest : List Nat),
        extra.length < 65536 → (∀ ch ∈ nm, ch ≠ 0) → nm.length < 512 →
        (∀ ch ∈ cmt, ch ≠ 0) → cmt.length < 512 → storedCrc < 65536 →
        readHeader (hdrFixed flg mt xfl os ++
            hdrOptBytes flg extra nm cmt storedCrc ++ rest) =
          if flg &&& 2 ≠ 0 ∧ storedCrc ≠ crc32 (hdrFixed flg mt xfl os) &&& 65535
          then .error .errHeader
          else .ok ({ modTime := mt % 4294967296, os := os,
                      extra := if flg &&& 4 ≠ 0 then some extra else none,
                      name := if flg &&& 8 ≠ 0 then some nm else none,
                      comment := if flg &&& 16 ≠ 0 then some cmt else none }, rest))
    ∧ (∀ (flg mt xfl os : Nat) (nm rest : List Nat),
        flg &&& 4 = 0 → flg &&& 8 ≠ 0 → (∀ ch ∈ nm, ch ≠ 0) → 512 ≤ nm.length →
        readHeader (hdrFixed flg mt xfl os ++ (nm ++ rest)) = .error .errHeader) := by
  refine ⟨?_, readHeader_decomposed, ?_⟩
  · intro b0 b1 b2 r hr hmagic
    rw [readHeader, readFull, if_pos (by simp only [List.length_cons]; omega)]
    dsimp only
    rw [List.take_succ_cons, List.take_succ_cons, List.take_succ_cons]
    rw [if_pos (by simpa using hmagic)]
  · intro flg mt xfl os nm rest hnoex hflg hnz hlen
    rw [readHeader, readFull_exact 10 _ _ (hdrFixed_len flg mt xfl os)]
    dsimp only
    rw [hdrFixed_getD_0, hdrFixed_getD_1, hdrFixed_getD_2, hdrFixed_getD_3]
    rw [if_neg (by simp)]
    rw [show parseExtra flg (nm ++ rest) = .ok (none, nm ++ rest) from by
      rw [parseExtra, if_neg (by simp [hnoex])]]
    dsimp only
    rw [parseOptString, if_pos hflg, readString_long nm rest hnz hlen]
theorem c4_header_parsing_witness :
    readHeader (0 :: 1 :: 2 :: [3, 4, 5, 6, 7, 8, 9]) = .error .errHeader
    ∧ readHeader (hdrFixed 30 3 0 255 ++ hdrOptBytes 30 [1, 2] [97] [98]
        (crc32 (hdrFixed 30 3 0 255) &&& 65535) ++ [5]) =
      .ok ({ modTime := 3, os := 255, extra := some [1, 2], name := some [97],
             comment := some [98] }, [5])
    ∧ readHeader (hdrFixed 8 1 0 255 ++ (List.replicate 512 97 ++ [0, 4]))
        = .error .errHeader := by
  refine ⟨c4_header_parsing.1 0 1 2 [3, 4, 5, 6, 7, 8, 9] (by norm_num) (by norm_num),
    ?_, ?_⟩
  · have hcl : crc32 (hdrFixed 30 3 0 255) &&& 65535 < 65536 := by
      have h := Nat.and_lt_two_pow (crc32 (hdrFixed 30 3 0 255))
        (show (65535 : Nat) < 2 ^ 16 by norm_num)
      omega
    have h := c4_header_parsing.2.1 30 3 0 255 [1, 2] [97] [98]
      (crc32 (hdrFixed 30 3 0 255) &&& 65535) [5] (by norm_num) (by decide) (by norm_num)
      (by decide) (by norm_num) hcl
    rw [if_neg (by simp)] at h
    rw [if_pos (by decide), if_pos (by decide), if_pos (by decide)] at h
    simpa using h
  · exact c4_header_parsing.2.2 8 1 0 255 (List.replicate 512 97) [0, 4] (by decide)
      (by decide) (fun ch hch => by rw [List.eq_of_mem_replicate hch]; norm_num) (by simp)

theorem startMember_blocks (c : Codec) (z : ReaderState) (input : List Nat) :
    (startMember c z input).blocks = z.blocks
    ∧ (startMember c z input).blockSize = z.blockSize
    ∧ (startMember c z input).err = z.err := by
  rw [startMember]
  rcases c.inflate input with _ | ⟨payload, r⟩ <;> simp

/-- C8: error latching.  Once an error is latched in `z.err`, every `Read`
returns `(0, that same error)` immediately and leaves the session untouched
(no further I/O); and `Reset` clears the latch unconditionally — whatever
the old state and whatever the new source, the post-reset state carries no
latched error. -/
theorem c8_error_latch :
    (∀ (c : Codec) (fuel : Nat) (z : ReaderState) (plen : Nat) (e : GzErr),
        z.err = some e → readOnce c fuel z plen = (0, some e, z))
    ∧ (∀ (c : Codec) (z : ReaderState) (input : List Nat),
        ((resetReader c z input).2).err = none) := by
  constructor
  · intro c fuel z plen e he
    rw [readOnce, he]
  · intro c z input
    rw [resetReader]
    rcases h : readHeader input with e | ⟨hdr, rest⟩
    · simp
    · simp [(startMember_blocks c _ rest).2.2]

theorem c8_error_latch_witness :
    readOnce storedCodec 3
        (⟨[4], [], false, some .errChecksum, 0, 0, [], 250000, 16⟩ : ReaderState) 5
      = (0, some .errChecksum,
         (⟨[4], [], false, some .errChecksum, 0, 0, [], 250000, 16⟩ : ReaderState))
    ∧ ((resetReader storedCodec
        (⟨[4], [], false, some .errChecksum, 0, 0, [], 250000, 16⟩ : ReaderState) [1]).2).err
      = none :=
  ⟨c8_error_latch.1 storedCodec 3 _ 5 .errChecksum rfl,
   c8_error_latch.2 storedCodec _ [1]⟩

/-- C10: `NewReaderN` never fails because of its `blockSize` or `blocks`
arguments: its outcome (error or success) is the same as with the default
arguments and is decided by header parsing alone; on success, a block count
of at most 0 is silently replaced by the default 16 and a block size of at
most 512 by the default 250000, with no configuration error. -/
theorem c10_reader_config (c : Codec) (input : List Nat) (bs bl : Int) :
    (∀ e : GzErr, newReaderN c input bs bl = .error e ↔
        newReaderN c input defaultBlockSize defaultBlocks = .error e)
    ∧ (∀ (hdr : GzHeader) (rest : List Nat), readHeader input = .ok (hdr, rest) →
        ∃ z : ReaderState, newReaderN c input bs bl = .ok z
          ∧ z.blocks = (if bl ≤ 0 then 16 else bl)
          ∧ z.blockSize = (if bs ≤ 512 then 250000 else bs)) := by
  constructor
  · intro e
    rw [newReaderN, newReaderN]
    rcases h : readHeader input with e2 | ⟨hdr, rest⟩ <;> simp
  · intro hdr rest h
    rw [newReaderN, h]
    refine ⟨_, rfl, ?_, ?_⟩
    · rw [(startMember_blocks c _ rest).1]
      rfl
    · rw [(startMember_blocks c _ rest).2.1]
      rfl

theorem c10_reader_config_witness :
    ∃ z : ReaderState,
      newReaderN storedCodec [31, 139, 8, 0, 0, 0, 0, 0, 0, 255] (-5) 0 = .ok z
      ∧ z.blocks = (if (0 : Int) ≤ 0 then 16 else 0)
      ∧ z.blockSize = (if (-5 : Int) ≤ 512 then 250000 else -5) :=
  (c10_reader_config storedCodec [31, 139, 8, 0, 0, 0, 0, 0, 0, 255] (-5) 0).2
    { modTime := 0, os := 255, extra := none, name := none, comment := none } []
    (by decide)
/-- C2: in `Reader.Read(p)`, on the branch where the caller's buffer is at
least as large as the current read-ahead block, Read returns `n` equal to
the number of bytes actually copied into `p`, which is `len(current)` —
not `len(p)` (second conjunct). -/
theorem c2_read_returns_copied (c : Codec) (fuel : Nat) (z : ReaderState) (plen : Nat)
    (herr : z.err = none) (hcur : z.current ≠ []) (hlast : z.lastBlock = false)
    (hp : z.current.length ≤ plen) :
    readOnce c fuel z plen = (z.current.length, none, { z with current := [] })
    ∧ (z.current.length < plen → (readOnce c fuel z plen).1 ≠ plen) := by
  have hp0 : plen ≠ 0 := by
    have : 0 < z.current.length := List.length_pos.mpr hcur
    omega
  have main : readOnce c fuel z plen = (z.current.length, none, { z with current := [] }) := by
    rw [readOnce, herr]
    dsimp only
    rw [if_neg hp0]
    rw [if_neg (by simp [hcur])]
    dsimp only
    rw [if_pos hp, if_neg (by simp [hlast])]
    rw [herr]
  exact ⟨main, fun hlt => by rw [main]; dsimp only; omega⟩
theorem c2_read_returns_copied_witness :
    readOnce storedCodec 0 (⟨[7, 8], [], false, none, 0, 0, [], 250000, 16⟩ : ReaderState) 5
      = (2, none, (⟨[], [], false, none, 0, 0, [], 250000, 16⟩ : ReaderState))
    ∧ ((2 : Nat) < 5 → (readOnce storedCodec 0
        (⟨[7, 8], [], false, none, 0, 0, [], 250000, 16⟩ : ReaderState) 5).1 ≠ 5) :=
  c2_read_returns_copied storedCodec 0 _ 5 rfl (by simp) rfl (by simp)

/-- C3: trailer validation.  At the end of a member's DEFLATE data (the
read-ahead delivers the decompressed bytes with `io.EOF`, the underlying
reader holds exactly the 8-byte trailer), `Read` returns `ErrChecksum` if
and only if the IEEE CRC-32 over the decompressed bytes differs from the
trailer's CRC-32 field or the decompressed length mod 2^32 differs from
ISIZE; on mismatch the error is latched so every subsequent `Read` returns
it again with no further I/O. -/
theorem c3_trailer_check (c : Codec) (fuel : Nat) (payload t : List Nat)
    (bs bl : Int) (plen : Nat)
    (ht : t.length = 8) (hp : payload.length ≤ plen) (hp0 : 0 < plen) :
    (crc32 payload ≠ get4 (t.take 4) ∨ payload.length % 4294967296 ≠ get4 (t.drop 4) →
      readOnce c fuel
          (⟨[], [(payload, some .eof)], false, none, 0, 0, t, bs, bl⟩ : ReaderState) plen
        = (0, some .errChecksum,
           (⟨[], [], true, some .errChecksum, crc32 payload,
             payload.length % 4294967296, [], bs, bl⟩ : ReaderState))
      ∧ ∀ (fuel2 plen2 : Nat), readOnce c fuel2
          (⟨[], [], true, some .errChecksum, crc32 payload,
            payload.length % 4294967296, [], bs, bl⟩ : ReaderState) plen2
          = (0, some .errChecksum,
             (⟨[], [], true, some .errChecksum, crc32 payload,
               payload.length % 4294967296, [], bs, bl⟩ : ReaderState)))
    ∧ (crc32 payload = get4 (t.take 4) ∧ payload.length % 4294967296 = get4 (t.drop 4) →
      (readOnce c fuel
          (⟨[], [(payload, some .eof)], false, none, 0, 0, t, bs, bl⟩ : ReaderState) plen).2.1
        ≠ some .errChecksum
      ∧ ((readOnce c fuel
          (⟨[], [(payload, some .eof)], false, none, 0, 0, t, bs, bl⟩ : ReaderState)
          plen).2.2).err ≠ some .errChecksum) := by
  have hfetch : fetchItem
      (⟨[], [(payload, some .eof)], false, none, 0, 0, t, bs, bl⟩ : ReaderState) =
      ((⟨payload, [], true, none, digestWrite 0 payload,
        (0 + payload.length) % 4294967296, t, bs, bl⟩ : ReaderState), none) := rfl
  have hstep : readOnce c fuel
      (⟨[], [(payload, some .eof)], false, none, 0, 0, t, bs, bl⟩ : ReaderState) plen =
      (if digestWrite 0 payload ≠ get4 (t.take 4)
          ∨ (0 + payload.length) % 4294967296 ≠ get4 (t.drop 4) then
        (0, some .errChecksum,
         (⟨[], [], true, some .errChecksum, digestWrite 0 payload,
           (0 + payload.length) % 4294967296, [], bs, bl⟩ : ReaderState))
      else
        (payload.length, some .eof,
         (⟨[], [], true, some .eof, digestWrite 0 payload,
           (0 + payload.length) % 4294967296, [], bs, bl⟩ : ReaderState))) := by
    rw [readOnce]
    dsimp only
    rw [if_neg (by omega)]
    rw [if_pos (by simp), hfetch]
    dsimp only
    rw [if_pos hp, if_pos rfl]
    rw [readFull, if_pos (by simp [ht])]
    rw [show t.take 8 = t by rw [← ht, List.take_length],
      show t.drop 8 = [] by rw [← ht, List.drop_length]]
    dsimp only
    by_cases hm : digestWrite 0 payload ≠ get4 (t.take 4)
        ∨ (0 + payload.length) % 4294967296 ≠ get4 (t.drop 4)
    · rw [if_pos hm, if_pos hm]
    · rw [if_neg hm, if_neg hm, readHeader_nil]
  rw [digestWrite_zero, Nat.zero_add] at hstep
  constructor
  · intro hmis
    rw [hstep, if_pos hmis]
    exact ⟨rfl, fun fuel2 plen2 => by rw [readOnce]⟩
  · intro hok
    rw [hstep, if_neg (by omega)]
    simp
theorem c3_trailer_check_witness :
    (crc32 [1] ≠ get4 ([0, 0, 0, 0, 0, 0, 0, 0].take 4)
        ∨ [1].length % 4294967296 ≠ get4 ([0, 0, 0, 0, 0, 0, 0, 0].drop 4) →
      readOnce storedCodec 0
          (⟨[], [([1], some .eof)], false, none, 0, 0,
            [0, 0, 0, 0, 0, 0, 0, 0], 250000, 16⟩ : ReaderState) 5
        = (0, some .errChecksum,
           (⟨[], [], true, some .errChecksum, crc32 [1],
             [1].length % 4294967296, [], 250000, 16⟩ : ReaderState))
      ∧ ∀ (fuel2 plen2 : Nat), readOnce storedCodec fuel2
          (⟨[], [], true, some .errChecksum, crc32 [1],
            [1].length % 4294967296, [], 250000, 16⟩ : ReaderState) plen2
          = (0, some .errChecksum,
             (⟨[], [], true, some .errChecksum, crc32 [1],
               [1].length % 4294967296, [], 250000, 16⟩ : ReaderState)))
    ∧ (crc32 [1] = get4 ([0, 0, 0, 0, 0, 0, 0, 0].take 4)
        ∧ [1].length % 4294967296 = get4 ([0, 0, 0, 0, 0, 0, 0, 0].drop 4) →
      (readOnce storedCodec 0
          (⟨[], [([1], some .eof)], false, none, 0, 0,
            [0, 0, 0, 0, 0, 0, 0, 0], 250000, 16⟩ : ReaderState) 5).2.1
        ≠ some .errChecksum
      ∧ ((readOnce storedCodec 0
          (⟨[], [([1], some .eof)], false, none, 0, 0,
            [0, 0, 0, 0, 0, 0, 0, 0], 250000, 16⟩ : ReaderState) 5).2.2).err
        ≠ some .errChecksum) :=
  c3_trailer_check storedCodec 0 [1] [0, 0, 0, 0, 0, 0, 0, 0] 250000 16 5
    (by simp) (by simp) (by norm_num)

end Pgzip
